import Mathlib

/-!
Verification of the `sequencing` parameter/object model against the behavior
demonstrated in `docs/source/notebooks/00-parameterized.ipynb`.

The notebook is the only source file of the repository.  The `Parameterized`
machinery it exercises (`sequencing.parameters`) is not part of the sources,
so that machinery is modelled from the specification (each such definition
says so in its doc comment), while the concrete `Engine` / `Transmission` /
`Car` schemas and all observed behaviors are taken from the notebook itself.
-/

namespace Sequencing

mutual
/-- Values stored in parameters.  Python ints, floats, bools and strings are
modelled as `Int`, `Rat`, `Bool` and `String`; a Python `dict` is an ordered
field list (`vDict`), and a `Parameterized` instance (Instance Model) is
`vObj name cls params`.  Floats carry a rational payload: no claim involves
float arithmetic, only the int/float distinction made by converters. -/
inductive Value where
  | vInt : Int → Value
  | vFloat : Rat → Value
  | vBool : Bool → Value
  | vStr : String → Value
  | vDict : Fields → Value
  | vObj : String → String → Fields → Value

/-- An ordered association list of named values (parameter maps and
serialized mappings). -/
inductive Fields where
  | fnil : Fields
  | fcons : String → Value → Fields → Fields
end

mutual
/-- Structural equality test on values (Python `==` for the shapes used by
the notebook; attrs-generated `__eq__` compares class, name and every
parameter value recursively). -/
def Value.beqV : Value → Value → Bool
  | .vInt a, .vInt b => a == b
  | .vFloat a, .vFloat b => a == b
  | .vBool a, .vBool b => a == b
  | .vStr a, .vStr b => a == b
  | .vDict a, .vDict b => Fields.beqF a b
  | .vObj n c p, .vObj n2 c2 p2 => n == n2 && c == c2 && Fields.beqF p p2
  | _, _ => false

/-- Structural equality test on field lists. -/
def Fields.beqF : Fields → Fields → Bool
  | .fnil, .fnil => true
  | .fcons k v r, .fcons k2 v2 r2 => k == k2 && Value.beqV v v2 && Fields.beqF r r2
  | _, _ => false
end

mutual
theorem Value.beqV_iff : ∀ a b : Value, (Value.beqV a b = true) ↔ a = b
  | .vInt _, .vInt _ => by simp [Value.beqV]
  | .vInt _, .vFloat _ => by simp [Value.beqV]
  | .vInt _, .vBool _ => by simp [Value.beqV]
  | .vInt _, .vStr _ => by simp [Value.beqV]
  | .vInt _, .vDict _ => by simp [Value.beqV]
  | .vInt _, .vObj _ _ _ => by simp [Value.beqV]
  | .vFloat _, .vInt _ => by simp [Value.beqV]
  | .vFloat _, .vFloat _ => by simp [Value.beqV]
  | .vFloat _, .vBool _ => by simp [Value.beqV]
  | .vFloat _, .vStr _ => by simp [Value.beqV]
  | .vFloat _, .vDict _ => by simp [Value.beqV]
  | .vFloat _, .vObj _ _ _ => by simp [Value.beqV]
  | .vBool _, .vInt _ => by simp [Value.beqV]
  | .vBool _, .vFloat _ => by simp [Value.beqV]
  | .vBool _, .vBool _ => by simp [Value.beqV]
  | .vBool _, .vStr _ => by simp [Value.beqV]
  | .vBool _, .vDict _ => by simp [Value.beqV]
  | .vBool _, .vObj _ _ _ => by simp [Value.beqV]
  | .vStr _, .vInt _ => by simp [Value.beqV]
  | .vStr _, .vFloat _ => by simp [Value.beqV]
  | .vStr _, .vBool _ => by simp [Value.beqV]
  | .vStr _, .vStr _ => by simp [Value.beqV]
  | .vStr _, .vDict _ => by simp [Value.beqV]
  | .vStr _, .vObj _ _ _ => by simp [Value.beqV]
  | .vDict _, .vInt _ => by simp [Value.beqV]
  | .vDict _, .vFloat _ => by simp [Value.beqV]
  | .vDict _, .vBool _ => by simp [Value.beqV]
  | .vDict _, .vStr _ => by simp [Value.beqV]
  | .vDict a, .vDict b => by simp [Value.beqV, Fields.beqF_iff a b]
  | .vDict _, .vObj _ _ _ => by simp [Value.beqV]
  | .vObj _ _ _, .vInt _ => by simp [Value.beqV]
  | .vObj _ _ _, .vFloat _ => by simp [Value.beqV]
  | .vObj _ _ _, .vBool _ => by simp [Value.beqV]
  | .vObj _ _ _, .vStr _ => by simp [Value.beqV]
  | .vObj _ _ _, .vDict _ => by simp [Value.beqV]
  | .vObj n c p, .vObj n2 c2 p2 => by
      simp [Value.beqV, Fields.beqF_iff p p2, and_assoc]

theorem Fields.beqF_iff : ∀ a b : Fields, (Fields.beqF a b = true) ↔ a = b
  | .fnil, .fnil => by simp [Fields.beqF]
  | .fnil, .fcons _ _ _ => by simp [Fields.beqF]
  | .fcons _ _ _, .fnil => by simp [Fields.beqF]
  | .fcons k v r, .fcons k2 v2 r2 => by
      simp [Fields.beqF, Value.beqV_iff v v2, Fields.beqF_iff r r2, and_assoc]
end

instance : DecidableEq Value := fun a b => decidable_of_iff _ (Value.beqV_iff a b)

instance : DecidableEq Fields := fun a b => decidable_of_iff _ (Fields.beqF_iff a b)

/-- Look up the value bound to a key (first occurrence). -/
def Fields.lookup : Fields → String → Option Value
  | .fnil, _ => none
  | .fcons k v rest, s => if k = s then some v else rest.lookup s

/-- Does a key occur in the field list? -/
def Fields.hasKey : Fields → String → Bool
  | .fnil, _ => false
  | .fcons k _ rest, s => k = s || rest.hasKey s

/-- Replace the value at an existing key (first occurrence), preserving order;
a missing key leaves the fields unchanged (mirrors in-place attribute update). -/
def Fields.replace : Fields → String → Value → Fields
  | .fnil, _, _ => .fnil
  | .fcons k v rest, s, w =>
      if k = s then .fcons k w rest else .fcons k v (rest.replace s w)

/-- The list of keys, in order. -/
def Fields.keys : Fields → List String
  | .fnil => []
  | .fcons k _ rest => k :: rest.keys

/-- Error taxonomy of the spec: validation, construction, path and
deserialization failures.  A `validationError` carries the parameter name,
the description of the accepted values, and the rejected value, matching the
notebook message `chassis must be in [sedan, coupe, hatchback, suv]
(got convertible)`. -/
inductive PError where
  | validationError : String → String → Value → PError
  | constructionError : String → PError
  | pathError : String → PError
  | deserializationError : String → PError
deriving DecidableEq

/-- Equality of fallible results is decidable componentwise. -/
instance {ε α : Type} [DecidableEq ε] [DecidableEq α] : DecidableEq (Except ε α) := fun a b =>
  match a, b with
  | .ok x, .ok y =>
      if h : x = y then .isTrue (by rw [h]) else .isFalse (by intro hc; cases hc; exact h rfl)
  | .error x, .error y =>
      if h : x = y then .isTrue (by rw [h]) else .isFalse (by intro hc; cases hc; exact h rfl)
  | .ok _, .error _ => .isFalse (by intro hc; cases hc)
  | .error _, .ok _ => .isFalse (by intro hc; cases hc)

/-- Modelled from the spec: a Parameter Descriptor declares one named
attribute with a default value, an optional converter (here a total function,
identity when absent) and an optional validator (constantly true when
absent), plus the textual description of the allowed values used in
validation errors. -/
structure ParamDescriptor where
  name : String
  defaultValue : Value
  convert : Value → Value
  validate : Value → Bool
  allowed : String

/-- Modelled from the spec: a Parameterized Schema is the ordered list of
descriptors registered for one class identity. -/
structure ClassSchema where
  clsName : String
  descriptors : List ParamDescriptor

/-- The class registry used to resolve `cls` identifiers. -/
abbrev Schemas := List ClassSchema

/-- Find the schema registered for a class identity. -/
def lookupSchema (ss : Schemas) (c : String) : Option ClassSchema :=
  ss.find? (fun sch => sch.clsName == c)

/-- Modelled from the spec: the assignment pipeline of a descriptor —
convert the raw value, then validate the converted value; on failure the
assignment does not take effect and a `validationError` names the parameter,
the allowed constraint and the rejected value. -/
def runPipeline (d : ParamDescriptor) (v : Value) : Except PError Value :=
  let w := d.convert v
  if d.validate w then .ok w else .error (.validationError d.name d.allowed w)

/-- Modelled from the spec: construction-time value resolution — for every
descriptor in schema order, take the explicit override when present,
otherwise the resolved default, and run the convert+validate pipeline on it. -/
def buildParams : List ParamDescriptor → Fields → Except PError Fields
  | [], _ => .ok .fnil
  | d :: ds, ov =>
      match runPipeline d (match ov.lookup d.name with | some v => v | none => d.defaultValue) with
      | .error e => .error e
      | .ok v =>
          match buildParams ds ov with
          | .error e => .error e
          | .ok rest => .ok (.fcons d.name v rest)

/-- Modelled from the spec: `new(name, **overrides)` — requires a non-empty
name, a registered class, no unknown parameter names, and builds every value
through the pipeline; any failure produces no instance. -/
def Parameterized.new (ss : Schemas) (c n : String) (ov : Fields) : Except PError Value :=
  if n = "" then .error (.constructionError "name must be a non-empty string")
  else
    match lookupSchema ss c with
    | none => .error (.constructionError c)
    | some sch =>
        if ov.keys.all (fun k => sch.descriptors.any (fun d => d.name == k)) then
          match buildParams sch.descriptors ov with
          | .error e => .error e
          | .ok ps => .ok (.vObj n c ps)
        else .error (.constructionError "unknown parameter")

/-- Modelled from the spec: the Path Resolver's read — descend through
nested Instance Models one segment at a time; the empty segment list fails,
a non-final segment must reach a nested Instance Model, the final segment
returns the current parameter value. -/
def getPath : Value → List String → Except PError Value
  | _, [] => .error (.pathError "empty path")
  | .vObj _ _ ps, [s] =>
      match ps.lookup s with
      | some v => .ok v
      | none => .error (.pathError s)
  | .vObj _ _ ps, s :: rest =>
      match ps.lookup s with
      | some v => getPath v rest
      | none => .error (.pathError s)
  | _, s :: _ => .error (.pathError s)

/-- Direct chained attribute access (Python `x.engine.displacement`),
defined independently of the Path Resolver: repeated attribute lookup. -/
def attrChain : Value → List String → Option Value
  | x, [] => some x
  | .vObj _ _ ps, s :: rest =>
      match ps.lookup s with
      | some v => attrChain v rest
      | none => none
  | _, _ :: _ => none

/-- The descriptor addressed by a path: follows the same route as
`getPath`/`setPath` and returns the final segment's descriptor when the
route resolves, the addressed class is registered, and the parameter is
present on the instance. -/
def routeDescr (ss : Schemas) : Value → List String → Option ParamDescriptor
  | _, [] => none
  | .vObj _ c ps, [s] =>
      match lookupSchema ss c with
      | none => none
      | some sch =>
          match sch.descriptors.find? (fun d => d.name == s) with
          | none => none
          | some d => if ps.hasKey s then some d else none
  | .vObj _ _ ps, s :: rest =>
      match ps.lookup s with
      | some v => routeDescr ss v rest
      | none => none
  | _, _ :: _ => none

/-- Modelled from the spec: the Path Resolver's write — descend to the
addressed Instance Model, run the final descriptor's convert+validate
pipeline, and replace the stored value.  The state component mirrors the
in-place mutation of the Python object; on error the pre-call state is
reported unchanged (proved below, not baked in: inner failures still rebuild
the spine with the child state returned by the recursive call). -/
def setPath (ss : Schemas) : Value → List String → Value → Value × Option PError
  | x, [], _ => (x, some (.pathError "empty path"))
  | .vObj n c ps, [s], w =>
      match lookupSchema ss c with
      | none => (.vObj n c ps, some (.pathError c))
      | some sch =>
          match sch.descriptors.find? (fun d => d.name == s) with
          | none => (.vObj n c ps, some (.pathError s))
          | some d =>
              if ps.hasKey s then
                match runPipeline d w with
                | .ok w2 => (.vObj n c (ps.replace s w2), none)
                | .error e => (.vObj n c ps, some e)
              else (.vObj n c ps, some (.pathError s))
  | .vObj n c ps, s :: rest, w =>
      match ps.lookup s with
      | some child =>
          let r := setPath ss child rest w
          (.vObj n c (ps.replace s r.1), r.2)
      | none => (.vObj n c ps, some (.pathError s))
  | x, s :: _, _ => (x, some (.pathError s))

/-- Split a character list on `.`, `str.split` style: the result is always
non-empty, empty segments are kept. -/
def splitChars : List Char → List (List Char)
  | [] => [[]]
  | c :: rest =>
      match splitChars rest with
      | [] => [[c]]
      | seg :: segs => if c = '.' then [] :: seg :: segs else (c :: seg) :: segs

/-- Dotted path strings are split on `.` into segments (Python
`path.split(".")`). -/
def splitPath (p : String) : List String :=
  (splitChars p.toList).map (fun l => String.mk l)

/-- Modelled from the spec: `get_param(path)` returns the bare value at a
single dotted path. -/
def Parameterized.get_param (x : Value) (p : String) : Except PError Value :=
  getPath x (splitPath p)

/-- Modelled from the spec: `set_param(path, value)` runs the full
convert+validate pipeline at the addressed parameter and replaces it. -/
def Parameterized.set_param (ss : Schemas) (x : Value) (p : String) (w : Value) :
    Value × Option PError :=
  setPath ss x (splitPath p) w

/-- Resolve a batch of dotted paths to a path-keyed field list. -/
def getMulti (x : Value) : List String → Except PError Fields
  | [] => .ok .fnil
  | p :: rest =>
      match getPath x (splitPath p) with
      | .error e => .error e
      | .ok v =>
          match getMulti x rest with
          | .error e => .error e
          | .ok f => .ok (.fcons p v f)

/-- `get(*paths)` as the notebook observes it: a mapping keyed by the
literal path strings — `car.get(..) == { path : value }` — also for a
single path. -/
def Parameterized.get (x : Value) (paths : List String) : Except PError Value :=
  match getMulti x paths with
  | .ok f => .ok (.vDict f)
  | .error e => .error e

/-- Replace every (leftmost, non-overlapping) `__` by `.`. -/
def sepToDotChars : List Char → List Char
  | [] => []
  | '_' :: '_' :: rest => '.' :: sepToDotChars rest
  | c :: rest => c :: sepToDotChars rest

/-- The double-underscore keyword separator is a syntactic substitute for
the path dot (Python `key.replace("__", ".")`). -/
def sepToDot (k : String) : String := String.mk (sepToDotChars k.toList)

/-- Apply the keyword assignments left to right on a scratch state; the
first failure stops the walk. -/
def setFold (ss : Schemas) : Value × Option PError → List (String × Value) →
    Value × Option PError
  | acc, [] => acc
  | acc, kv :: rest =>
      match acc.2 with
      | some _ => acc
      | none => setFold ss (Parameterized.set_param ss acc.1 (sepToDot kv.1) kv.2) rest

/-- Modelled from the spec: multi-path `set(**kwargs)` — every assignment is
validated and applied in order on a scratch state; the first failure aborts
the whole call with no side effect from earlier assignments in the same
call. -/
def Parameterized.set (ss : Schemas) (x : Value) (kvs : List (String × Value)) :
    Value × Option PError :=
  match (setFold ss (x, none) kvs).2 with
  | some e => (x, some e)
  | none => ((setFold ss (x, none) kvs).1, none)

/-- Modelled from the spec: scope entry of the Scoped Override Manager —
for every dotted path in order, record the current value via `get`, then
apply the new value via `set`; a failure propagates before the scope body
runs.  Returns the overridden state and the recorded snapshot in
application order. -/
def tempSetEnter (ss : Schemas) (x : Value) :
    List (String × Value) → Except PError (Value × List (String × Value))
  | [] => .ok (x, [])
  | (p, w) :: rest =>
      match Parameterized.get_param x p with
      | .error e => .error e
      | .ok old =>
          match (Parameterized.set_param ss x p w).2 with
          | some e => .error e
          | none =>
              match tempSetEnter ss (Parameterized.set_param ss x p w).1 rest with
              | .error e => .error e
              | .ok (x2, h) => .ok (x2, (p, old) :: h)

/-- Modelled from the spec: scope exit — restore every recorded original
value via `set`, in the reverse of application order; restoration is
unconditional and a restoration attempt is made for every path regardless of
earlier restoration failures. -/
def tempSetExit (ss : Schemas) (y : Value) : List (String × Value) → Value
  | [] => y
  | (p, old) :: h => (Parameterized.set_param ss (tempSetExit ss y h) p old).1

/-- Modelled from the spec: `temporarily_set(**overrides)` — apply the
overrides, run the scope body (a state transformer paired with a
did-it-raise flag), and restore the snapshot whether or not the body raised. -/
def Parameterized.temporarily_set (ss : Schemas) (x : Value)
    (ov : List (String × Value)) (body : Value → Value × Bool) :
    Value × Option PError × Bool :=
  match tempSetEnter ss x (ov.map (fun kv => (sepToDot kv.1, kv.2))) with
  | .error e => (x, some e, false)
  | .ok (x1, h) => (tempSetExit ss (body x1).1 h, none, (body x1).2)

/-- A mapping produced for a nested Instance Model: a `dict` carrying a
`cls` key (the shape `from_dict` recursively reconstructs). -/
def isObjDict : Value → Bool
  | .vDict es => es.hasKey "cls"
  | _ => false

mutual
/-- Modelled from the spec: `as_dict()` — an Instance Model becomes an
ordered mapping holding `name`, `cls` and one entry per parameter in schema
order, nested Instance Models recursively converted; every other value is
kept as is. -/
def as_dict : Value → Value
  | .vObj n c ps => .vDict (.fcons "name" (.vStr n) (.fcons "cls" (.vStr c) (asDictFields ps)))
  | v => v

/-- Parameter entries of `as_dict`, in order. -/
def asDictFields : Fields → Fields
  | .fnil => .fnil
  | .fcons k v rest => .fcons k (as_dict v) (asDictFields rest)
end

/-- Drop the `name` and `cls` bookkeeping entries of a mapping. -/
def removeMeta : Fields → Fields
  | .fnil => .fnil
  | .fcons k v rest =>
      if k = "name" || k = "cls" then removeMeta rest
      else .fcons k v (removeMeta rest)

mutual
/-- Modelled from the spec: `from_dict(mapping)` — the `cls` entry selects
the class to instantiate from the registry, nested mappings that carry a
`cls` key are recursively converted back into Instance Models, and every
remaining entry is passed as a named construction argument. -/
def from_dict (ss : Schemas) : Value → Except PError Value
  | .vDict es =>
      match convFields ss es with
      | .error e => .error e
      | .ok es2 =>
          match es2.lookup "cls", es2.lookup "name" with
          | some (.vStr c), some (.vStr n) => Parameterized.new ss c n (removeMeta es2)
          | _, _ => .error (.deserializationError "missing cls or name")
  | _ => .error (.deserializationError "not a mapping")

/-- Recursively convert the entries of a serialized mapping: entries that
are themselves Instance-Model mappings are deserialized, all others pass
through unchanged. -/
def convFields (ss : Schemas) : Fields → Except PError Fields
  | .fnil => .ok .fnil
  | .fcons k v rest =>
      match (if isObjDict v then from_dict ss v else .ok v) with
      | .error e => .error e
      | .ok v2 =>
          match convFields ss rest with
          | .error e => .error e
          | .ok rest2 => .ok (.fcons k v2 rest2)
end

mutual
/-- Well-formed Instance Model over a registry: the class is registered, the
name is non-empty, and the stored parameters line up with the schema. -/
def wfV (ss : Schemas) : Value → Bool
  | .vObj n c ps =>
      match lookupSchema ss c with
      | some sch => n != "" && wfFields ss sch.descriptors ps
      | none => false
  | _ => true

/-- Stored parameters line up with a descriptor list: same names in order,
every value a fixed point of its converter that passes its validator, nested
Instance Models recursively well-formed, and plain values not mistakable for
serialized Instance Models. -/
def wfFields (ss : Schemas) : List ParamDescriptor → Fields → Bool
  | [], .fnil => true
  | d :: ds, .fcons k v rest =>
      k == d.name && d.convert v == v && d.validate v &&
      (match v with
       | .vObj _ _ _ => wfV ss v
       | w => !(isObjDict w)) &&
      wfFields ss ds rest
  | _, _ => false
end

/-- Registry sanity: descriptor names are duplicate-free within each schema
and never collide with the `name`/`cls` bookkeeping keys. -/
def schemaWF (ss : Schemas) : Bool :=
  ss.all (fun sch =>
    decide ((sch.descriptors.map (fun d => d.name)).Nodup) &&
    sch.descriptors.all (fun d => d.name != "name" && d.name != "cls"))

/-! ### The notebook's concrete schemas (source: cell defining Engine, Transmission, Car) -/

/-- `FloatParameter`: converter `float` — ints (and bools) become floats. -/
def floatConvert : Value → Value
  | .vInt n => .vFloat n
  | .vBool b => .vFloat (if b then 1 else 0)
  | v => v

/-- `IntParameter`: converter `int` — floats truncate toward zero, bools
become 0/1.  (No claim exercises the float case.) -/
def intConvert : Value → Value
  | .vFloat q => .vInt (if q < 0 then -((-q).floor) else q.floor)
  | .vBool b => .vInt (if b then 1 else 0)
  | v => v

/-- `BoolParameter`: converter `bool` — Python truthiness on the value
shapes that occur in the notebook. -/
def boolConvert : Value → Value
  | .vInt n => .vBool (n != 0)
  | .vFloat q => .vBool (q != 0)
  | .vStr s => .vBool (s != "")
  | v => v

/-- `StringParameter`: converter `str`; identity on strings, which is the
only case the notebook exercises. -/
def strConvert : Value → Value
  | v => v

/-- `attr.validators.in_` over a string list. -/
def inStrList (xs : List String) : Value → Bool
  | .vStr s => xs.contains s
  | _ => false

/-- `attr.validators.in_` over an int list. -/
def inIntList (xs : List Int) : Value → Bool
  | .vInt n => xs.contains n
  | _ => false

/-- Absent validator: everything passes. -/
def anyValue : Value → Bool := fun _ => true

/-- `Engine` schema from the notebook: cylinders=IntParameter(4),
displacement=FloatParameter(2), current_rpm=FloatParameter(0),
turbo_charged=BoolParameter(False). -/
def engineSchema : ClassSchema :=
  ⟨"__main__.Engine",
   [⟨"cylinders", .vInt 4, intConvert, anyValue, ""⟩,
    ⟨"displacement", .vInt 2, floatConvert, anyValue, ""⟩,
    ⟨"current_rpm", .vInt 0, floatConvert, anyValue, ""⟩,
    ⟨"turbo_charged", .vBool false, boolConvert, anyValue, ""⟩]⟩

/-- `Transmission` schema from the notebook: manual=BoolParameter(False),
num_gears=IntParameter(5), current_gear=IntParameter(1). -/
def transmissionSchema : ClassSchema :=
  ⟨"__main__.Transmission",
   [⟨"manual", .vBool false, boolConvert, anyValue, ""⟩,
    ⟨"num_gears", .vInt 5, intConvert, anyValue, ""⟩,
    ⟨"current_gear", .vInt 1, intConvert, anyValue, ""⟩]⟩

/-- The engine produced by `Car`'s factory `lambda: Engine("engine")`
(repr in the notebook: cylinders=4, displacement=2.0, current_rpm=0.0,
turbo_charged=False). -/
def engineDefault : Value :=
  .vObj "engine" "__main__.Engine"
    (.fcons "cylinders" (.vInt 4)
      (.fcons "displacement" (.vFloat 2)
        (.fcons "current_rpm" (.vFloat 0)
          (.fcons "turbo_charged" (.vBool false) .fnil))))

/-- The transmission produced by `Car`'s factory
`lambda: Transmission("transmission")`. -/
def transmissionDefault : Value :=
  .vObj "transmission" "__main__.Transmission"
    (.fcons "manual" (.vBool false)
      (.fcons "num_gears" (.vInt 5)
        (.fcons "current_gear" (.vInt 1) .fnil)))

/-- `Car.VALID_CHASSIS` from the notebook. -/
def validChassis : List String := ["sedan", "coupe", "hatchback", "suv"]

/-- `Car` schema from the notebook: chassis=StringParameter("sedan",
in_(VALID_CHASSIS)), num_doors=IntParameter(4, in_([2,4])),
miles_per_gallon=FloatParameter(30), engine and transmission attr.ib
factories. -/
def carSchema : ClassSchema :=
  ⟨"__main__.Car",
   [⟨"chassis", .vStr "sedan", strConvert, inStrList validChassis,
       "[sedan, coupe, hatchback, suv]"⟩,
    ⟨"num_doors", .vInt 4, intConvert, inIntList [2, 4], "[2, 4]"⟩,
    ⟨"miles_per_gallon", .vInt 30, floatConvert, anyValue, ""⟩,
    ⟨"engine", engineDefault, id, anyValue, ""⟩,
    ⟨"transmission", transmissionDefault, id, anyValue, ""⟩]⟩

/-- The registry holding the three notebook classes. -/
def sequencingSchemas : Schemas := [engineSchema, transmissionSchema, carSchema]

/-- `Car("car")` as printed by the notebook. -/
def carDefault : Value :=
  .vObj "car" "__main__.Car"
    (.fcons "chassis" (.vStr "sedan")
      (.fcons "num_doors" (.vInt 4)
        (.fcons "miles_per_gallon" (.vFloat 30)
          (.fcons "engine" engineDefault
            (.fcons "transmission" transmissionDefault .fnil)))))

/-- `beginsWith a b`: `b` is an initial run of the segment list `a`. -/
def beginsWith : List String → List String → Bool
  | _, [] => true
  | [], _ :: _ => false
  | a :: as, b :: bs => a == b && beginsWith as bs

/-- Two segment paths are disjoint when neither is an initial run of the
other: they address separate parameters and neither lies inside the value
stored at the other. -/
def pathsDisjoint (a b : List String) : Bool :=
  !(beginsWith a b) && !(beginsWith b a)

/-- Every pair of paths in an override list is disjoint. -/
def pairwiseDisjoint : List (String × Value) → Bool
  | [] => true
  | kv :: rest =>
      rest.all (fun kv2 => pathsDisjoint (splitPath kv.1) (splitPath kv2.1)) &&
      pairwiseDisjoint rest

/-- The path is addressable on `x` and the given value would pass the
addressed descriptor's pipeline unchanged — exactly what a restoring `set`
of a previously stored value needs. -/
def canSet (ss : Schemas) (x : Value) (sp : List String) (old : Value) : Bool :=
  match routeDescr ss x sp with
  | some d => Value.beqV (d.convert old) old && d.validate old
  | none => false

/-- The current value at a dotted path of `x` can be read and later written
back through the pipeline unchanged. -/
def canRestore (ss : Schemas) (x : Value) (p : String) : Bool :=
  match getPath x (splitPath p) with
  | .ok old => canSet ss x (splitPath p) old
  | .error _ => false

/-- Is the value an Instance Model? -/
def isObjV : Value → Bool
  | .vObj _ _ _ => true
  | _ => false

/-! ### Heap model for default-factory freshness (claim about object sharing) -/

/-- Heap values: primitives or references to heap objects. -/
inductive HVal where
  | hInt : Int → HVal
  | hFloat : Rat → HVal
  | hBool : Bool → HVal
  | hStr : String → HVal
  | hRef : Nat → HVal
deriving DecidableEq

/-- A heap-allocated Instance Model. -/
structure HObj where
  hname : String
  hcls : String
  hfields : List (String × HVal)
deriving DecidableEq

/-- The heap: objects addressed by allocation index. -/
abbrev Heap := List HObj

/-- Allocate a fresh object at the end of the heap. -/
def halloc (h : Heap) (o : HObj) : Heap × Nat := (h ++ [o], h.length)

/-- Replace the value at a key of an association list. -/
def assocSet : List (String × HVal) → String → HVal → List (String × HVal)
  | [], _, _ => []
  | kv :: rest, k, v => if kv.1 = k then (k, v) :: rest else kv :: assocSet rest k v

/-- Read one field of the object at a heap address. -/
def heapField (h : Heap) (addr : Nat) (k : String) : Option HVal :=
  match h.get? addr with
  | some o => List.lookup k o.hfields
  | none => none

/-- Overwrite one field of the object at a heap address. -/
def heapSetField (h : Heap) (addr : Nat) (k : String) (v : HVal) : Heap :=
  match h.get? addr with
  | some o => h.set addr ⟨o.hname, o.hcls, assocSet o.hfields k v⟩
  | none => h

/-- The `Engine("engine")` default fields. -/
def engineHFields : List (String × HVal) :=
  [("cylinders", .hInt 4), ("displacement", .hFloat 2),
   ("current_rpm", .hFloat 0), ("turbo_charged", .hBool false)]

/-- The `Transmission("transmission")` default fields. -/
def transmissionHFields : List (String × HVal) :=
  [("manual", .hBool false), ("num_gears", .hInt 5), ("current_gear", .hInt 1)]

/-- The heap object the engine factory produces. -/
def engineHObj : HObj := ⟨"engine", "__main__.Engine", engineHFields⟩

/-- The heap object the transmission factory produces. -/
def transmissionHObj : HObj := ⟨"transmission", "__main__.Transmission", transmissionHFields⟩

/-- A car object referencing its children by heap address. -/
def carHObj (nm : String) (e t : Nat) : HObj :=
  ⟨nm, "__main__.Car",
   [("chassis", .hStr "sedan"), ("num_doors", .hInt 4),
    ("miles_per_gallon", .hFloat 30),
    ("engine", .hRef e), ("transmission", .hRef t)]⟩

/-- Modelled from the spec: constructing `Car(name)` with no overrides
invokes each attr.ib factory once for this instance — a fresh `Engine` and a
fresh `Transmission` are allocated, then the car referencing them. -/
def newCarH (h : Heap) (nm : String) : Heap × Nat :=
  let he := halloc h engineHObj
  let ht := halloc he.1 transmissionHObj
  let hc := halloc ht.1 (carHObj nm he.2 ht.2)
  (hc.1, hc.2)

/-! ### Field-list lemmas -/

theorem Fields.replace_self : ∀ (ps : Fields) (s : String) (v : Value),
    ps.lookup s = some v → ps.replace s v = ps
  | .fnil, _, _ => by intro _; rfl
  | .fcons k w rest, s, v => by
      intro h
      by_cases hk : k = s
      · subst hk
        have h2 : w = v := by simpa [Fields.lookup] using h
        simp [Fields.replace, h2]
      · simp only [Fields.lookup, if_neg hk] at h
        simp [Fields.replace, hk, Fields.replace_self rest s v h]

theorem Fields.hasKey_replace : ∀ (ps : Fields) (s t : String) (w : Value),
    (ps.replace s w).hasKey t = ps.hasKey t
  | .fnil, _, _, _ => rfl
  | .fcons k v rest, s, t, w => by
      by_cases hk : k = s <;>
        simp [Fields.replace, hk, Fields.hasKey, Fields.hasKey_replace rest s t w]

theorem Fields.lookup_replace_ne : ∀ (ps : Fields) (s t : String), t ≠ s → ∀ (w : Value),
    (ps.replace s w).lookup t = ps.lookup t
  | .fnil, _, _ => by intro _ _; rfl
  | .fcons k v rest, s, t => by
      intro hne w
      by_cases hk : k = s
      · subst hk
        have hst : ¬ k = t := fun h => hne h.symm
        simp [Fields.replace, Fields.lookup, hst]
      · simp only [Fields.replace, if_neg hk, Fields.lookup]
        split
        · rfl
        · exact Fields.lookup_replace_ne rest s t hne w

theorem Fields.lookup_replace_eq : ∀ (ps : Fields) (s : String), ps.hasKey s = true →
    ∀ (w : Value), (ps.replace s w).lookup s = some w
  | .fnil, s => by intro h; simp [Fields.hasKey] at h
  | .fcons k v rest, s => by
      intro h w
      by_cases hk : k = s
      · simp [Fields.replace, hk, Fields.lookup]
      · simp only [Fields.hasKey, if_neg hk, Bool.or_eq_true, decide_eq_true_eq] at h
        rcases h with h | h
        · exact absurd h hk
        · simp [Fields.replace, hk, Fields.lookup, Fields.lookup_replace_eq rest s h w]

theorem Fields.hasKey_of_lookup : ∀ (ps : Fields) (s : String) (v : Value),
    ps.lookup s = some v → ps.hasKey s = true
  | .fnil, s, v => by intro h; simp [Fields.lookup] at h
  | .fcons k w rest, s, v => by
      intro h
      by_cases hk : k = s
      · simp [Fields.hasKey, hk]
      · simp only [Fields.lookup, if_neg hk] at h
        simp [Fields.hasKey, Fields.hasKey_of_lookup rest s v h]

/-! ### Path write lemmas -/

theorem setPath_fst_of_err (ss : Schemas) : ∀ (sp : List String) (x w : Value)
    (e : PError), (setPath ss x sp w).2 = some e → (setPath ss x sp w).1 = x
  | [], x, w, e => by intro _; cases x <;> rfl
  | [s], x, w, e => by
      intro h
      cases x with
      | vObj n c ps =>
          cases hsch : lookupSchema ss c with
          | none => simp [setPath, hsch]
          | some sch =>
              cases hfd : sch.descriptors.find? (fun d => d.name == s) with
              | none => simp [setPath, hsch, hfd]
              | some d =>
                  by_cases hk : ps.hasKey s
                  · cases hrp : runPipeline d w with
                    | ok w2 => simp [setPath, hsch, hfd, hk, hrp] at h
                    | error e2 => simp [setPath, hsch, hfd, hk, hrp]
                  · simp [setPath, hsch, hfd, hk]
      | vInt a => rfl
      | vFloat a => rfl
      | vBool a => rfl
      | vStr a => rfl
      | vDict a => rfl
  | s :: s2 :: rest, x, w, e => by
      intro h
      cases x with
      | vObj n c ps =>
          cases hlk : ps.lookup s with
          | none => simp [setPath, hlk]
          | some child =>
              simp only [setPath, hlk] at h ⊢
              rw [setPath_fst_of_err ss (s2 :: rest) child w e h]
              rw [Fields.replace_self ps s child hlk]
      | vInt a => rfl
      | vFloat a => rfl
      | vBool a => rfl
      | vStr a => rfl
      | vDict a => rfl

theorem setPath_ok_of_route (ss : Schemas) : ∀ (sp : List String) (x w : Value)
    (d : ParamDescriptor), routeDescr ss x sp = some d →
    ∀ w2, runPipeline d w = .ok w2 →
    (setPath ss x sp w).2 = none ∧ getPath (setPath ss x sp w).1 sp = .ok w2
  | [], x, w, d => by intro h; cases x <;> simp [routeDescr] at h
  | [s], x, w, d => by
      intro h w2 hw2
      cases x with
      | vObj n c ps =>
          cases hsch : lookupSchema ss c with
          | none => simp [routeDescr, hsch] at h
          | some sch =>
              cases hfd : sch.descriptors.find? (fun d0 => d0.name == s) with
              | none => simp [routeDescr, hsch, hfd] at h
              | some d0 =>
                  by_cases hk : ps.hasKey s
                  · simp only [routeDescr, hsch, hfd, if_pos hk, Option.some.injEq] at h
                    subst h
                    refine ⟨by simp [setPath, hsch, hfd, hk, hw2], ?_⟩
                    simp [setPath, hsch, hfd, hk, hw2, getPath,
                      Fields.lookup_replace_eq ps s hk w2]
                  · simp [routeDescr, hsch, hfd, hk] at h
      | vInt a => simp [routeDescr] at h
      | vFloat a => simp [routeDescr] at h
      | vBool a => simp [routeDescr] at h
      | vStr a => simp [routeDescr] at h
      | vDict a => simp [routeDescr] at h
  | s :: s2 :: rest, x, w, d => by
      intro h w2 hw2
      cases x with
      | vObj n c ps =>
          cases hlk : ps.lookup s with
          | none => simp [routeDescr, hlk] at h
          | some child =>
              simp only [routeDescr, hlk] at h
              have ih := setPath_ok_of_route ss (s2 :: rest) child w d h w2 hw2
              have hkey : ps.hasKey s = true := Fields.hasKey_of_lookup ps s child hlk
              refine ⟨by simp [setPath, hlk, ih.1], ?_⟩
              simp only [setPath, hlk, getPath,
                Fields.lookup_replace_eq ps s hkey _]
              exact ih.2
      | vInt a => simp [routeDescr] at h
      | vFloat a => simp [routeDescr] at h
      | vBool a => simp [routeDescr] at h
      | vStr a => simp [routeDescr] at h
      | vDict a => simp [routeDescr] at h

theorem setPath_err_of_pipeline (ss : Schemas) : ∀ (sp : List String) (x w : Value)
    (d : ParamDescriptor), routeDescr ss x sp = some d →
    ∀ e, runPipeline d w = .error e → (setPath ss x sp w).2 = some e
  | [], x, w, d => by intro h; cases x <;> simp [routeDescr] at h
  | [s], x, w, d => by
      intro h e he
      cases x with
      | vObj n c ps =>
          cases hsch : lookupSchema ss c with
          | none => simp [routeDescr, hsch] at h
          | some sch =>
              cases hfd : sch.descriptors.find? (fun d0 => d0.name == s) with
              | none => simp [routeDescr, hsch, hfd] at h
              | some d0 =>
                  by_cases hk : ps.hasKey s
                  · simp only [routeDescr, hsch, hfd, if_pos hk, Option.some.injEq] at h
                    subst h
                    simp [setPath, hsch, hfd, hk, he]
                  · simp [routeDescr, hsch, hfd, hk] at h
      | vInt a => simp [routeDescr] at h
      | vFloat a => simp [routeDescr] at h
      | vBool a => simp [routeDescr] at h
      | vStr a => simp [routeDescr] at h
      | vDict a => simp [routeDescr] at h
  | s :: s2 :: rest, x, w, d => by
      intro h e he
      cases x with
      | vObj n c ps =>
          cases hlk : ps.lookup s with
          | none => simp [routeDescr, hlk] at h
          | some child =>
              simp only [routeDescr, hlk] at h
              simp only [setPath, hlk]
              exact setPath_err_of_pipeline ss (s2 :: rest) child w d h e he
      | vInt a => simp [routeDescr] at h
      | vFloat a => simp [routeDescr] at h
      | vBool a => simp [routeDescr] at h
      | vStr a => simp [routeDescr] at h
      | vDict a => simp [routeDescr] at h


theorem setPath_frame (ss : Schemas) : ∀ (sp : List String) (x w : Value),
    (setPath ss x sp w).2 = none → ∀ (sq : List String),
    pathsDisjoint sp sq = true → getPath (setPath ss x sp w).1 sq = getPath x sq
  | [], x, w => by intro h; cases x <;> simp [setPath] at h
  | [s], x, w => by
      intro h sq hdisj
      cases x with
      | vObj n c ps =>
          cases hsch : lookupSchema ss c with
          | none => simp [setPath, hsch] at h
          | some sch =>
              cases hfd : sch.descriptors.find? (fun d0 => d0.name == s) with
              | none => simp [setPath, hsch, hfd] at h
              | some d =>
                  by_cases hk : ps.hasKey s
                  · cases hrp : runPipeline d w with
                    | error e2 => simp [setPath, hsch, hfd, hk, hrp] at h
                    | ok w2 =>
                        cases sq with
                        | nil => simp [setPath, hsch, hfd, hk, hrp, getPath]
                        | cons t qs =>
                            have hts : t ≠ s := by
                              intro hts
                              subst hts
                              simp [pathsDisjoint, beginsWith] at hdisj
                            cases qs with
                            | nil =>
                                simp only [setPath, hsch, hfd, if_pos hk, hrp, getPath,
                                  Fields.lookup_replace_ne ps s t hts w2]
                            | cons q2 qs2 =>
                                simp only [setPath, hsch, hfd, if_pos hk, hrp, getPath,
                                  Fields.lookup_replace_ne ps s t hts w2]
                  · simp [setPath, hsch, hfd, hk] at h
      | vInt a => simp [setPath] at h
      | vFloat a => simp [setPath] at h
      | vBool a => simp [setPath] at h
      | vStr a => simp [setPath] at h
      | vDict a => simp [setPath] at h
  | s :: s2 :: rest, x, w => by
      intro h sq hdisj
      cases x with
      | vObj n c ps =>
          cases hlk : ps.lookup s with
          | none => simp [setPath, hlk] at h
          | some child =>
              simp only [setPath, hlk] at h ⊢
              have hkey : ps.hasKey s = true := Fields.hasKey_of_lookup ps s child hlk
              cases sq with
              | nil => simp [getPath]
              | cons t qs =>
                  by_cases hts : t = s
                  · subst hts
                    cases qs with
                    | nil =>
                        exfalso
                        simp [pathsDisjoint, beginsWith] at hdisj
                    | cons q2 qs2 =>
                        have hd2 : pathsDisjoint (s2 :: rest) (q2 :: qs2) = true := by
                          simp only [pathsDisjoint, beginsWith, beq_self_eq_true,
                            Bool.true_and, Bool.and_eq_true, Bool.not_eq_eq_eq_not,
                            Bool.not_true] at hdisj ⊢
                          exact hdisj
                        simp only [getPath, Fields.lookup_replace_eq ps t hkey _, hlk]
                        exact setPath_frame ss (s2 :: rest) child w h (q2 :: qs2) hd2
                  · cases qs with
                    | nil =>
                        simp only [getPath, Fields.lookup_replace_ne ps s t hts _]
                    | cons q2 qs2 =>
                        simp only [getPath, Fields.lookup_replace_ne ps s t hts _]
      | vInt a => simp [setPath] at h
      | vFloat a => simp [setPath] at h
      | vBool a => simp [setPath] at h
      | vStr a => simp [setPath] at h
      | vDict a => simp [setPath] at h

theorem setPath_route (ss : Schemas) : ∀ (sq : List String) (x w : Value),
    (setPath ss x sq w).2 = none → ∀ (sp : List String),
    (beginsWith sp sq = true → sp = sq) →
    routeDescr ss (setPath ss x sq w).1 sp = routeDescr ss x sp
  | [], x, w => by intro h; cases x <;> simp [setPath] at h
  | [s], x, w => by
      intro h sp hcond
      cases x with
      | vObj n c ps =>
          cases hsch : lookupSchema ss c with
          | none => simp [setPath, hsch] at h
          | some sch =>
              cases hfd : sch.descriptors.find? (fun d0 => d0.name == s) with
              | none => simp [setPath, hsch, hfd] at h
              | some d =>
                  by_cases hk : ps.hasKey s
                  · cases hrp : runPipeline d w with
                    | error e2 => simp [setPath, hsch, hfd, hk, hrp] at h
                    | ok w2 =>
                        cases sp with
                        | nil => simp [setPath, hsch, hfd, hk, hrp, routeDescr]
                        | cons t qs =>
                            cases qs with
                            | nil =>
                                simp only [setPath, hsch, hfd, if_pos hk, hrp, routeDescr,
                                  Fields.hasKey_replace ps s t w2]
                            | cons q2 qs2 =>
                                have hts : t ≠ s := by
                                  intro hts
                                  subst hts
                                  have := hcond (by simp [beginsWith])
                                  simp at this
                                simp only [setPath, hsch, hfd, if_pos hk, hrp, routeDescr,
                                  Fields.lookup_replace_ne ps s t hts w2]
                  · simp [setPath, hsch, hfd, hk] at h
      | vInt a => simp [setPath] at h
      | vFloat a => simp [setPath] at h
      | vBool a => simp [setPath] at h
      | vStr a => simp [setPath] at h
      | vDict a => simp [setPath] at h
  | s :: s2 :: rest, x, w => by
      intro h sp hcond
      cases x with
      | vObj n c ps =>
          cases hlk : ps.lookup s with
          | none => simp [setPath, hlk] at h
          | some child =>
              simp only [setPath, hlk] at h ⊢
              have hkey : ps.hasKey s = true := Fields.hasKey_of_lookup ps s child hlk
              cases sp with
              | nil => simp [routeDescr]
              | cons t qs =>
                  cases qs with
                  | nil =>
                      simp only [routeDescr, Fields.hasKey_replace ps s t _]
                  | cons q2 qs2 =>
                      by_cases hts : t = s
                      · subst hts
                        have hc2 : beginsWith (q2 :: qs2) (s2 :: rest) = true →
                            q2 :: qs2 = s2 :: rest := by
                          intro hb
                          have := hcond (by
                            simp only [beginsWith, beq_self_eq_true, Bool.true_and]
                            exact hb)
                          simpa using this
                        simp only [routeDescr, Fields.lookup_replace_eq ps t hkey _, hlk]
                        exact setPath_route ss (s2 :: rest) child w h (q2 :: qs2) hc2
                      · simp only [routeDescr, Fields.lookup_replace_ne ps s t hts _]
      | vInt a => simp [setPath] at h
      | vFloat a => simp [setPath] at h
      | vBool a => simp [setPath] at h
      | vStr a => simp [setPath] at h
      | vDict a => simp [setPath] at h

/-- A value that `canSet` approves runs through the addressed descriptor's
pipeline unchanged, so `set` succeeds and a following `get` returns it. -/
theorem setPath_restore (ss : Schemas) (x : Value) (sp : List String) (old : Value)
    (hc : canSet ss x sp old = true) :
    (setPath ss x sp old).2 = none ∧ getPath (setPath ss x sp old).1 sp = .ok old := by
  unfold canSet at hc
  cases hd : routeDescr ss x sp with
  | none => rw [hd] at hc; cases hc
  | some d =>
      rw [hd] at hc
      simp only [Bool.and_eq_true, Value.beqV_iff] at hc
      have hrp : runPipeline d old = .ok old := by
        unfold runPipeline
        rw [hc.1, if_pos hc.2]
      exact setPath_ok_of_route ss sp x old d hd old hrp

/-- `canSet` is preserved by a successful write at the same path or at a
path that does not lie strictly above it. -/
theorem canSet_preserved (ss : Schemas) (sq : List String) (x w : Value)
    (h : (setPath ss x sq w).2 = none) (sp : List String) (old : Value)
    (hcond : beginsWith sp sq = true → sp = sq)
    (hc : canSet ss x sp old = true) :
    canSet ss (setPath ss x sq w).1 sp old = true := by
  unfold canSet at hc ⊢
  rw [setPath_route ss sq x w h sp hcond]
  exact hc

/-- Disjoint paths never begin with one another. -/
theorem beginsWith_false_of_disjoint {sp sq : List String}
    (h : pathsDisjoint sp sq = true) : beginsWith sp sq = false := by
  unfold pathsDisjoint at h
  simp only [Bool.and_eq_true, Bool.not_eq_eq_eq_not, Bool.not_true] at h
  exact h.1

/-- Disjointness is symmetric. -/
theorem pathsDisjoint_symm {sp sq : List String}
    (h : pathsDisjoint sp sq = true) : pathsDisjoint sq sp = true := by
  unfold pathsDisjoint at h ⊢
  simp only [Bool.and_eq_true] at h
  simp [h.1, h.2]

/-! ### Path read lemmas -/

theorem getPath_attrChain : ∀ (sp : List String) (x v : Value),
    getPath x sp = .ok v → attrChain x sp = some v
  | [], x, v => by intro h; cases x <;> simp [getPath] at h
  | [s], x, v => by
      intro h
      cases x with
      | vObj n c ps =>
          cases hlk : ps.lookup s with
          | none => simp [getPath, hlk] at h
          | some u =>
              simp only [getPath, hlk, Except.ok.injEq] at h
              subst h
              simp [attrChain, hlk]
      | vInt a => simp [getPath] at h
      | vFloat a => simp [getPath] at h
      | vBool a => simp [getPath] at h
      | vStr a => simp [getPath] at h
      | vDict a => simp [getPath] at h
  | s :: s2 :: rest, x, v => by
      intro h
      cases x with
      | vObj n c ps =>
          cases hlk : ps.lookup s with
          | none => simp [getPath, hlk] at h
          | some child =>
              simp only [getPath, hlk] at h
              simp only [attrChain, hlk]
              exact getPath_attrChain (s2 :: rest) child v h
      | vInt a => simp [getPath] at h
      | vFloat a => simp [getPath] at h
      | vBool a => simp [getPath] at h
      | vStr a => simp [getPath] at h
      | vDict a => simp [getPath] at h

/-! ### Scoped override lemmas -/

theorem forall_path_congr {a b : List (String × Value)}
    (hab : a.map Prod.fst = b.map Prod.fst) (P : String → Prop)
    (h : ∀ pe ∈ a, P pe.1) : ∀ pe ∈ b, P pe.1 := by
  intro pe hpe
  have hm : pe.1 ∈ b.map Prod.fst := List.mem_map_of_mem Prod.fst hpe
  rw [← hab] at hm
  rcases List.mem_map.mp hm with ⟨qe, hqe, hq1⟩
  rw [← hq1]
  exact h qe hqe

theorem all_path_congr (sp : List String) : ∀ (a b : List (String × Value)),
    a.map Prod.fst = b.map Prod.fst →
    a.all (fun kv => pathsDisjoint sp (splitPath kv.1)) =
    b.all (fun kv => pathsDisjoint sp (splitPath kv.1)) := by
  intro a
  induction a with
  | nil =>
      intro b hb
      cases b with
      | nil => rfl
      | cons qe b2 => simp at hb
  | cons pe a2 ih =>
      intro b hb
      cases b with
      | nil => simp at hb
      | cons qe b2 =>
          simp only [List.map_cons, List.cons.injEq] at hb
          simp only [List.all_cons, hb.1, ih b2 hb.2]

theorem pairwiseDisjoint_congr : ∀ (a b : List (String × Value)),
    a.map Prod.fst = b.map Prod.fst → pairwiseDisjoint a = pairwiseDisjoint b := by
  intro a
  induction a with
  | nil =>
      intro b hb
      cases b with
      | nil => rfl
      | cons qe b2 => simp at hb
  | cons pe a2 ih =>
      intro b hb
      cases b with
      | nil => simp at hb
      | cons qe b2 =>
          simp only [List.map_cons, List.cons.injEq] at hb
          simp only [pairwiseDisjoint, hb.1, all_path_congr _ a2 b2 hb.2, ih b2 hb.2]

theorem tempSetExit_spec (ss : Schemas) : ∀ (snap : List (String × Value)) (y : Value),
    pairwiseDisjoint snap = true →
    (∀ pe ∈ snap, canSet ss y (splitPath pe.1) pe.2 = true) →
    (∀ pe ∈ snap, getPath (tempSetExit ss y snap) (splitPath pe.1) = .ok pe.2) ∧
    (∀ sp old, (∀ pe ∈ snap, pathsDisjoint sp (splitPath pe.1) = true) →
      canSet ss y sp old = true → canSet ss (tempSetExit ss y snap) sp old = true) := by
  intro snap
  induction snap with
  | nil =>
      intro y _ _
      exact ⟨(by intro pe hpe; cases hpe), (by intro sp old _ hc; exact hc)⟩
  | cons pe snap2 ih =>
      intro y hdisj hcan
      obtain ⟨p, old⟩ := pe
      simp only [pairwiseDisjoint, Bool.and_eq_true, List.all_eq_true] at hdisj
      have hd1 := hdisj.1
      have ih2 := ih y hdisj.2 (fun qe hqe => hcan qe (List.mem_cons_of_mem _ hqe))
      have hcz : canSet ss (tempSetExit ss y snap2) (splitPath p) old = true := by
        refine ih2.2 (splitPath p) old ?_ (hcan (p, old) (List.mem_cons_self _ _))
        intro qe hqe
        exact hd1 qe hqe
      have hres := setPath_restore ss (tempSetExit ss y snap2) (splitPath p) old hcz
      constructor
      · intro qe hqe
        rcases List.mem_cons.mp hqe with hq | hq
        · subst hq
          simpa [tempSetExit, Parameterized.set_param] using hres.2
        · have hframe := setPath_frame ss (splitPath p) (tempSetExit ss y snap2) old
            hres.1 (splitPath qe.1) (hd1 qe hq)
          have := ih2.1 qe hq
          simpa [tempSetExit, Parameterized.set_param, hframe] using this
      · intro sp old2 hdall hc
        have hz : canSet ss (tempSetExit ss y snap2) sp old2 = true := by
          refine ih2.2 sp old2 ?_ hc
          intro qe hqe
          exact hdall qe (List.mem_cons_of_mem _ hqe)
        have hdp : pathsDisjoint sp (splitPath p) = true :=
          hdall (p, old) (List.mem_cons_self _ _)
        have hcond : beginsWith sp (splitPath p) = true → sp = splitPath p := by
          intro hb
          rw [beginsWith_false_of_disjoint hdp] at hb
          cases hb
        simpa [tempSetExit, Parameterized.set_param] using
          canSet_preserved ss (splitPath p) (tempSetExit ss y snap2) old hres.1 sp old2 hcond hz

theorem tempSetEnter_spec (ss : Schemas) : ∀ (ov : List (String × Value)) (x x1 : Value)
    (snap : List (String × Value)),
    pairwiseDisjoint ov = true →
    (∀ pe ∈ ov, canRestore ss x pe.1 = true) →
    tempSetEnter ss x ov = .ok (x1, snap) →
    snap.map Prod.fst = ov.map Prod.fst ∧
    (∀ pe ∈ snap, getPath x (splitPath pe.1) = .ok pe.2) ∧
    (∀ pe ∈ snap, canSet ss x1 (splitPath pe.1) pe.2 = true) ∧
    pairwiseDisjoint snap = true ∧
    (∀ sp old2, (∀ pe ∈ ov, pathsDisjoint sp (splitPath pe.1) = true) →
      canSet ss x sp old2 = true → canSet ss x1 sp old2 = true) := by
  intro ov
  induction ov with
  | nil =>
      intro x x1 snap _ _ henter
      simp only [tempSetEnter, Except.ok.injEq, Prod.mk.injEq] at henter
      obtain ⟨h1, h2⟩ := henter
      subst h1
      subst h2
      exact ⟨rfl, (by intro pe hpe; cases hpe), (by intro pe hpe; cases hpe), rfl,
        (by intro sp old2 _ hc; exact hc)⟩
  | cons pe rest ih =>
      intro x x1 snap hdisj hres henter
      obtain ⟨p, w⟩ := pe
      simp only [pairwiseDisjoint, Bool.and_eq_true, List.all_eq_true] at hdisj
      have hd1 := hdisj.1
      simp only [tempSetEnter] at henter
      cases hget : Parameterized.get_param x p with
      | error e => rw [hget] at henter; cases henter
      | ok old =>
          rw [hget] at henter
          cases hset : (Parameterized.set_param ss x p w).2 with
          | some e => rw [hset] at henter; cases henter
          | none =>
              rw [hset] at henter
              cases hrec : tempSetEnter ss (Parameterized.set_param ss x p w).1 rest with
              | error e => rw [hrec] at henter; cases henter
              | ok pr =>
                  obtain ⟨x2, snap2⟩ := pr
                  rw [hrec] at henter
                  simp only [Except.ok.injEq, Prod.mk.injEq] at henter
                  obtain ⟨hx1, hsnap⟩ := henter
                  subst hx1
                  subst hsnap
                  have hcrp : canRestore ss x p = true :=
                    hres (p, w) (List.mem_cons_self _ _)
                  have hcanp : canSet ss x (splitPath p) old = true := by
                    unfold canRestore at hcrp
                    rw [show getPath x (splitPath p) = .ok old from hget] at hcrp
                    exact hcrp
                  have hxa : canSet ss (Parameterized.set_param ss x p w).1
                      (splitPath p) old = true :=
                    canSet_preserved ss (splitPath p) x w hset (splitPath p) old
                      (fun _ => rfl) hcanp
                  have hres2 : ∀ qe ∈ rest,
                      canRestore ss (Parameterized.set_param ss x p w).1 qe.1 = true := by
                    intro qe hqe
                    have hdq := hd1 qe hqe
                    have hq := hres qe (List.mem_cons_of_mem _ hqe)
                    unfold canRestore at hq ⊢
                    simp only [Parameterized.set_param]
                    rw [setPath_frame ss (splitPath p) x w hset (splitPath qe.1) hdq]
                    cases hg : getPath x (splitPath qe.1) with
                    | error e => rw [hg] at hq; cases hq
                    | ok oldq =>
                        rw [hg] at hq
                        have hcond : beginsWith (splitPath qe.1) (splitPath p) = true →
                            splitPath qe.1 = splitPath p := by
                          intro hb
                          rw [beginsWith_false_of_disjoint (pathsDisjoint_symm hdq)] at hb
                          cases hb
                        exact canSet_preserved ss (splitPath p) x w hset
                          (splitPath qe.1) oldq hcond hq
                  have := ih (Parameterized.set_param ss x p w).1 x2 snap2 hdisj.2 hres2 hrec
                  obtain ⟨hmap, holds, hcans, hpd, hpres⟩ := this
                  refine ⟨by simp [hmap], ?_, ?_, ?_, ?_⟩
                  · intro qe hqe
                    rcases List.mem_cons.mp hqe with hq | hq
                    · subst hq
                      exact hget
                    · have hdq : pathsDisjoint (splitPath p) (splitPath qe.1) = true := by
                        refine forall_path_congr hmap.symm
                          (fun q0 => pathsDisjoint (splitPath p) (splitPath q0) = true) ?_ qe hq
                        intro re hre
                        exact hd1 re hre
                      rw [← setPath_frame ss (splitPath p) x w hset (splitPath qe.1) hdq]
                      exact holds qe hq
                  · intro qe hqe
                    rcases List.mem_cons.mp hqe with hq | hq
                    · subst hq
                      refine hpres (splitPath p) old ?_ hxa
                      intro re hre
                      exact hd1 re hre
                    · exact hcans qe hq
                  · have hall : snap2.all
                        (fun kv => pathsDisjoint (splitPath p) (splitPath kv.1)) = true := by
                      rw [all_path_congr (splitPath p) snap2 rest hmap]
                      simp only [List.all_eq_true]
                      intro qe hqe
                      exact hd1 qe hqe
                    simp only [pairwiseDisjoint, Bool.and_eq_true]
                    exact ⟨hall, hpd⟩
                  · intro sp old2 hdall hc
                    have hdp : pathsDisjoint sp (splitPath p) = true :=
                      hdall (p, w) (List.mem_cons_self _ _)
                    have hcond : beginsWith sp (splitPath p) = true → sp = splitPath p := by
                      intro hb
                      rw [beginsWith_false_of_disjoint hdp] at hb
                      cases hb
                    refine hpres sp old2 ?_
                      (canSet_preserved ss (splitPath p) x w hset sp old2 hcond hc)
                    intro qe hqe
                    exact hdall qe (List.mem_cons_of_mem _ hqe)

/-! ### Multi-path set lemmas -/

theorem set_err_id (ss : Schemas) (x : Value) (kvs : List (String × Value))
    (y : Value) (e : PError) (h : Parameterized.set ss x kvs = (y, some e)) : y = x := by
  unfold Parameterized.set at h
  cases hr : (setFold ss (x, none) kvs).2 with
  | some e2 =>
      rw [hr] at h
      injection h with h1 _
      exact h1.symm
  | none =>
      rw [hr] at h
      injection h with _ h2
      cases h2

theorem set_singleton (ss : Schemas) (x : Value) (k : String) (v : Value) :
    Parameterized.set ss x [(k, v)] = Parameterized.set_param ss x (sepToDot k) v := by
  have hf : setFold ss (x, none) [(k, v)] = Parameterized.set_param ss x (sepToDot k) v := rfl
  unfold Parameterized.set
  rw [hf]
  cases hr : (Parameterized.set_param ss x (sepToDot k) v).2 with
  | some e =>
      have h1 := setPath_fst_of_err ss (splitPath (sepToDot k)) x v e hr
      have h1b : (Parameterized.set_param ss x (sepToDot k) v).1 = x := h1
      exact Prod.ext h1b.symm hr.symm
  | none =>
      exact Prod.ext rfl hr.symm

/-! ### Serialization roundtrip lemmas -/

theorem schemaWF_spec {ss : Schemas} (hss : schemaWF ss = true) {c : String}
    {sch : ClassSchema} (h : lookupSchema ss c = some sch) :
    (sch.descriptors.map (fun d => d.name)).Nodup ∧
    (∀ d ∈ sch.descriptors, d.name ≠ "name" ∧ d.name ≠ "cls") := by
  have hmem : sch ∈ ss := List.mem_of_find?_eq_some h
  unfold schemaWF at hss
  rw [List.all_eq_true] at hss
  have h2 := hss sch hmem
  simp only [Bool.and_eq_true, decide_eq_true_eq, List.all_eq_true] at h2
  refine ⟨h2.1, ?_⟩
  intro d hd
  have h3 := h2.2 d hd
  simp only [Bool.and_eq_true, bne_iff_ne, ne_eq] at h3
  exact h3

theorem buildParams_skip (k : String) (v : Value) : ∀ (ds : List ParamDescriptor)
    (ov : Fields), (∀ d ∈ ds, d.name ≠ k) →
    buildParams ds (.fcons k v ov) = buildParams ds ov := by
  intro ds
  induction ds with
  | nil => intro ov _; rfl
  | cons d ds2 ih =>
      intro ov hk
      have hdk : ¬ k = d.name := fun h => (hk d (List.mem_cons_self _ _)) h.symm
      have hlk : Fields.lookup (.fcons k v ov) d.name = ov.lookup d.name := by
        simp [Fields.lookup, hdk]
      simp only [buildParams, hlk,
        ih ov (fun d2 hd2 => hk d2 (List.mem_cons_of_mem _ hd2))]

theorem wfFields_keys (ss : Schemas) : ∀ (ds : List ParamDescriptor) (ps : Fields),
    wfFields ss ds ps = true → ps.keys = ds.map (fun d => d.name) := by
  intro ds
  induction ds with
  | nil =>
      intro ps h
      cases ps with
      | fnil => rfl
      | fcons k v rest => simp [wfFields] at h
  | cons d ds2 ih =>
      intro ps h
      cases ps with
      | fnil => simp [wfFields] at h
      | fcons k v rest =>
          simp only [wfFields, Bool.and_eq_true, beq_iff_eq] at h
          obtain ⟨⟨⟨⟨h1, _⟩, _⟩, _⟩, h5⟩ := h
          simp [Fields.keys, h1, ih rest h5]

theorem buildParams_wf (ss : Schemas) : ∀ (ds : List ParamDescriptor) (ps : Fields),
    wfFields ss ds ps = true → (ds.map (fun d => d.name)).Nodup →
    buildParams ds ps = .ok ps := by
  intro ds
  induction ds with
  | nil =>
      intro ps h _
      cases ps with
      | fnil => rfl
      | fcons k v rest => simp [wfFields] at h
  | cons d ds2 ih =>
      intro ps h hnd
      cases ps with
      | fnil => simp [wfFields] at h
      | fcons k v rest =>
          simp only [wfFields, Bool.and_eq_true, beq_iff_eq] at h
          obtain ⟨⟨⟨⟨h1, h2⟩, h3⟩, _⟩, h5⟩ := h
          subst h1
          have hlk : Fields.lookup (.fcons d.name v rest) d.name = some v := by
            simp [Fields.lookup]
          have hrp : runPipeline d v = .ok v := by
            simp [runPipeline, h2, h3]
          simp only [List.map_cons, List.nodup_cons] at hnd
          have hskip : buildParams ds2 (.fcons d.name v rest) = buildParams ds2 rest := by
            refine buildParams_skip d.name v ds2 rest ?_
            intro d2 hd2 hEq
            exact hnd.1 (by rw [← hEq]; exact List.mem_map_of_mem _ hd2)
          simp only [buildParams, hlk, hrp, hskip, ih rest h5 hnd.2]

theorem removeMeta_keys : ∀ (ps : Fields),
    (∀ k ∈ ps.keys, k ≠ "name" ∧ k ≠ "cls") → removeMeta ps = ps
  | .fnil => by intro _; rfl
  | .fcons k v rest => by
      intro h
      have hk := h k (by simp [Fields.keys])
      have hrest : ∀ k2 ∈ rest.keys, k2 ≠ "name" ∧ k2 ≠ "cls" := by
        intro k2 hk2
        exact h k2 (by simp [Fields.keys]; right; exact hk2)
      simp [removeMeta, hk.1, hk.2, removeMeta_keys rest hrest]

theorem all_names_known (ds : List ParamDescriptor) :
    (ds.map (fun d => d.name)).all (fun k => ds.any (fun d2 => d2.name == k)) = true := by
  rw [List.all_eq_true]
  intro k hk
  rcases List.mem_map.mp hk with ⟨d, hd, hdk⟩
  rw [List.any_eq_true]
  exact ⟨d, hd, by simp [hdk]⟩

theorem objDict_as_dict (n c : String) (ps : Fields) :
    isObjDict (as_dict (.vObj n c ps)) = true := by
  have hnc : ("name" : String) ≠ "cls" := by decide
  simp [as_dict, isObjDict, Fields.hasKey, hnc]

mutual
theorem roundtripV (ss : Schemas) (hss : schemaWF ss = true) : ∀ (v : Value),
    isObjV v = true → wfV ss v = true → from_dict ss (as_dict v) = .ok v
  | .vObj n c ps => by
      intro _ hwf
      cases hsch : lookupSchema ss c with
      | none => simp [wfV, hsch] at hwf
      | some sch =>
          simp only [wfV, hsch, Bool.and_eq_true, bne_iff_ne, ne_eq] at hwf
          obtain ⟨hn, hflds⟩ := hwf
          have hF := roundtripF ss hss ps sch.descriptors hflds
          have hspec := schemaWF_spec hss hsch
          have hkeys := wfFields_keys ss sch.descriptors ps hflds
          have hnc : ("name" : String) ≠ "cls" := by decide
          have hcv : convFields ss
              (.fcons "name" (.vStr n) (.fcons "cls" (.vStr c) (asDictFields ps))) =
              .ok (.fcons "name" (.vStr n) (.fcons "cls" (.vStr c) ps)) := by
            simp [convFields, isObjDict, hF]
          have hlc : Fields.lookup
              (.fcons "name" (.vStr n) (.fcons "cls" (.vStr c) ps)) "cls" =
              some (.vStr c) := by
            simp [Fields.lookup, hnc]
          have hln : Fields.lookup
              (.fcons "name" (.vStr n) (.fcons "cls" (.vStr c) ps)) "name" =
              some (.vStr n) := by
            simp [Fields.lookup]
          have hrm : removeMeta (.fcons "name" (.vStr n) (.fcons "cls" (.vStr c) ps)) =
              ps := by
            have h1 : removeMeta (.fcons "name" (.vStr n)
                (.fcons "cls" (.vStr c) ps)) = removeMeta ps := by
              simp [removeMeta]
            rw [h1]
            refine removeMeta_keys ps ?_
            rw [hkeys]
            intro k2 hk2
            rcases List.mem_map.mp hk2 with ⟨d, hd, hdk⟩
            rw [← hdk]
            exact hspec.2 d hd
          have hall : ps.keys.all
              (fun k => sch.descriptors.any (fun d => d.name == k)) = true := by
            rw [hkeys]
            exact all_names_known sch.descriptors
          have hnew : Parameterized.new ss c n ps = .ok (.vObj n c ps) := by
            simp only [Parameterized.new, if_neg hn, hsch, hall, if_true,
              buildParams_wf ss sch.descriptors ps hflds hspec.1]
          simp only [as_dict, from_dict, hcv, hlc, hln, hrm]
          exact hnew
  | .vInt a => by intro h; simp [isObjV] at h
  | .vFloat a => by intro h; simp [isObjV] at h
  | .vBool a => by intro h; simp [isObjV] at h
  | .vStr a => by intro h; simp [isObjV] at h
  | .vDict a => by intro h; simp [isObjV] at h

theorem roundtripF (ss : Schemas) (hss : schemaWF ss = true) : ∀ (ps : Fields)
    (ds : List ParamDescriptor), wfFields ss ds ps = true →
    convFields ss (asDictFields ps) = .ok ps
  | .fnil, ds => by intro _; rfl
  | .fcons k v rest, ds => by
      intro h
      cases ds with
      | nil => simp [wfFields] at h
      | cons d ds2 =>
          simp only [wfFields, Bool.and_eq_true, beq_iff_eq] at h
          obtain ⟨⟨⟨⟨h1, h2⟩, h3⟩, h4⟩, h5⟩ := h
          have hrest := roundtripF ss hss rest ds2 h5
          cases v with
          | vObj n2 c2 ps2 =>
              have hobj := objDict_as_dict n2 c2 ps2
              have hv := roundtripV ss hss (.vObj n2 c2 ps2) rfl h4
              simp [asDictFields, convFields, hobj, hv, hrest]
          | vInt a => simp [asDictFields, as_dict, convFields, isObjDict, hrest]
          | vFloat a => simp [asDictFields, as_dict, convFields, isObjDict, hrest]
          | vBool a => simp [asDictFields, as_dict, convFields, isObjDict, hrest]
          | vStr a => simp [asDictFields, as_dict, convFields, isObjDict, hrest]
          | vDict es =>
              have h4b : isObjDict (.vDict es) = false := by
                simpa using h4
              simp [asDictFields, as_dict, convFields, h4b, hrest]
end

/-! ### Heap lemmas -/

theorem get?_snoc_self {α : Type} (l : List α) (x : α) :
    (l ++ [x]).get? l.length = some x := by
  induction l with
  | nil => rfl
  | cons a l2 ih => simp only [List.cons_append, List.length_cons, List.get?]; exact ih

theorem get?_snoc_lt {α : Type} (l : List α) (x : α) (i : Nat) (hi : i < l.length) :
    (l ++ [x]).get? i = l.get? i := by
  induction l generalizing i with
  | nil => cases hi
  | cons a l2 ih =>
      cases i with
      | zero => rfl
      | succ j => simpa using ih j (by simpa using hi)

theorem get?_append3_lt {α : Type} (l : List α) (x y z : α) (i : Nat) (hi : i < l.length) :
    (((l ++ [x]) ++ [y]) ++ [z]).get? i = l.get? i := by
  rw [get?_snoc_lt _ _ _ (by simp; omega), get?_snoc_lt _ _ _ (by simp; omega),
    get?_snoc_lt _ _ _ hi]

theorem get?_set_other {α : Type} (a : α) : ∀ (l : List α) (m n : Nat), m ≠ n →
    (l.set m a).get? n = l.get? n := by
  intro l
  induction l with
  | nil => intro m n _; rfl
  | cons b l2 ih =>
      intro m n hmn
      cases m with
      | zero =>
          cases n with
          | zero => exact absurd rfl hmn
          | succ j => rfl
      | succ i =>
          cases n with
          | zero => rfl
          | succ j =>
              simp only [List.set, List.get?]
              exact ih i j (by omega)

/-! ### Claim theorems -/

/-- C7: constructing `Car` twice with no overrides runs the engine factory
once per instance: the two cars reference distinct heap objects as their
engines, and mutating the displacement of the first car's engine leaves the
second car's engine unchanged (it still reads `2.0`). -/
theorem factory_defaults_not_shared (h : Heap) (nm1 nm2 : String) (q : Rat) :
    heapField (newCarH (newCarH h nm1).1 nm2).1 (newCarH h nm1).2 "engine"
      = some (.hRef h.length) ∧
    heapField (newCarH (newCarH h nm1).1 nm2).1 (newCarH (newCarH h nm1).1 nm2).2 "engine"
      = some (.hRef (h.length + 3)) ∧
    h.length ≠ h.length + 3 ∧
    heapField (heapSetField (newCarH (newCarH h nm1).1 nm2).1 h.length "displacement"
        (.hFloat q)) (h.length + 3) "displacement" = some (.hFloat 2) ∧
    heapField (newCarH (newCarH h nm1).1 nm2).1 (h.length + 3) "displacement"
      = some (.hFloat 2) := by
  have hfst : ∀ (g : Heap) (nm : String), (newCarH g nm).1 =
      ((g ++ [engineHObj]) ++ [transmissionHObj])
        ++ [carHObj nm g.length (g.length + 1)] := by
    intro g nm
    simp [newCarH, halloc]
  have hsnd : ∀ (g : Heap) (nm : String), (newCarH g nm).2 = g.length + 2 := by
    intro g nm
    simp [newCarH, halloc]
  have hlen1 : (newCarH h nm1).1.length = h.length + 3 := by
    rw [hfst]
    simp
  have hg1 : (newCarH (newCarH h nm1).1 nm2).1.get? (h.length + 2) =
      some (carHObj nm1 h.length (h.length + 1)) := by
    rw [hfst ((newCarH h nm1).1) nm2,
      get?_append3_lt _ _ _ _ _ (by rw [hlen1]; omega), hfst h nm1]
    have hx : ((h ++ [engineHObj]) ++ [transmissionHObj]).length = h.length + 2 := by simp
    rw [← hx, get?_snoc_self]
  have hg2 : (newCarH (newCarH h nm1).1 nm2).1.get?
      ((newCarH h nm1).1.length + 2) =
      some (carHObj nm2 (newCarH h nm1).1.length ((newCarH h nm1).1.length + 1)) := by
    rw [hfst ((newCarH h nm1).1) nm2]
    have hy : (((newCarH h nm1).1 ++ [engineHObj]) ++ [transmissionHObj]).length
        = (newCarH h nm1).1.length + 2 := by simp
    rw [← hy, get?_snoc_self]
  have hg3 : (newCarH (newCarH h nm1).1 nm2).1.get? (h.length + 3) =
      some engineHObj := by
    rw [hfst ((newCarH h nm1).1) nm2,
      get?_snoc_lt _ _ _ (by simp [hlen1]),
      get?_snoc_lt _ _ _ (by simp [hlen1]),
      ← hlen1, get?_snoc_self]
  have hg0 : (newCarH (newCarH h nm1).1 nm2).1.get? h.length =
      some engineHObj := by
    rw [hfst ((newCarH h nm1).1) nm2,
      get?_append3_lt _ _ _ _ _ (by rw [hlen1]; omega), hfst h nm1,
      get?_snoc_lt _ _ _ (by simp),
      get?_snoc_lt _ _ _ (by simp),
      get?_snoc_self]
  refine ⟨?_, ?_, by omega, ?_, ?_⟩
  · rw [hsnd h nm1]
    unfold heapField
    rw [hg1]
    rfl
  · rw [hsnd ((newCarH h nm1).1) nm2]
    unfold heapField
    rw [hg2]
    show List.lookup "engine" (carHObj nm2 (newCarH h nm1).1.length
      ((newCarH h nm1).1.length + 1)).hfields = some (HVal.hRef (h.length + 3))
    rw [show ∀ (nm : String) (a b : Nat),
        List.lookup "engine" (carHObj nm a b).hfields = some (HVal.hRef a) from
        fun nm a b => rfl, hlen1]
  · unfold heapSetField
    rw [hg0]
    unfold heapField
    rw [get?_set_other _ _ _ _ (by omega), hg3]
    rfl
  · unfold heapField
    rw [hg3]
    rfl

/-- C1: for every Instance Model that is well formed over a sane registry —
stored values are converter fixed points that pass their validators, nested
models included — deserializing the serialized mapping form reconstructs an
equal object: `from_dict (as_dict x) = ok x` under structural equality. -/
theorem from_dict_as_dict_id (ss : Schemas) (x : Value)
    (hss : schemaWF ss = true) (hobj : isObjV x = true) (hwf : wfV ss x = true) :
    from_dict ss (as_dict x) = .ok x :=
  roundtripV ss hss x hobj hwf

/-- C1 witness: the notebook's `Car.from_dict(car.as_dict()) == car`. -/
theorem from_dict_as_dict_id_witness :
    schemaWF sequencingSchemas = true ∧ isObjV carDefault = true ∧
    wfV sequencingSchemas carDefault = true ∧
    from_dict sequencingSchemas (as_dict carDefault) = .ok carDefault :=
  ⟨by decide, by decide, by decide,
   from_dict_as_dict_id sequencingSchemas carDefault (by decide) (by decide) (by decide)⟩

/-- C2: after a `temporarily_set` scope over pairwise disjoint dotted paths
ends — the body either completing normally or raising — every overridden
path reads the value it had before the scope began, provided the body keeps
the overridden paths addressable with their original values re-settable. -/
theorem temporarily_set_restores (ss : Schemas) (x : Value)
    (ov : List (String × Value)) (body : Value → Value × Bool) (y : Value) (raised : Bool)
    (hdisj : pairwiseDisjoint (ov.map (fun kv => (sepToDot kv.1, kv.2))) = true)
    (hres : ∀ pe ∈ ov, canRestore ss x (sepToDot pe.1) = true)
    (hbody : ∀ z old p, p ∈ ov.map (fun kv => sepToDot kv.1) →
      canSet ss z (splitPath p) old = true →
      canSet ss (body z).1 (splitPath p) old = true)
    (hrun : Parameterized.temporarily_set ss x ov body = (y, none, raised)) :
    ∀ pe ∈ ov, Parameterized.get_param y (sepToDot pe.1) =
      Parameterized.get_param x (sepToDot pe.1) := by
  unfold Parameterized.temporarily_set at hrun
  cases henter : tempSetEnter ss x (ov.map (fun kv => (sepToDot kv.1, kv.2))) with
  | error e =>
      rw [henter] at hrun
      injection hrun with _ h2
      injection h2 with h2a
      cases h2a
  | ok pr =>
      obtain ⟨x1, snap⟩ := pr
      rw [henter] at hrun
      injection hrun with h1 _
      have hres2 : ∀ pe ∈ ov.map (fun kv => (sepToDot kv.1, kv.2)),
          canRestore ss x pe.1 = true := by
        intro pe hpe
        rcases List.mem_map.mp hpe with ⟨kv, hkv, hkveq⟩
        rw [← hkveq]
        exact hres kv hkv
      obtain ⟨hmap, holds, hcans, hpd, _⟩ :=
        tempSetEnter_spec ss (ov.map (fun kv => (sepToDot kv.1, kv.2))) x x1 snap
          hdisj hres2 henter
      have hbody2 : ∀ pe ∈ snap, canSet ss (body x1).1 (splitPath pe.1) pe.2 = true := by
        intro pe hpe
        refine hbody x1 pe.2 pe.1 ?_ (hcans pe hpe)
        have h3 : pe.1 ∈ snap.map Prod.fst := List.mem_map_of_mem _ hpe
        rw [hmap] at h3
        simpa [List.map_map, Function.comp] using h3
      obtain ⟨hrest, _⟩ := tempSetExit_spec ss snap (body x1).1 hpd hbody2
      intro pe hpe
      have hp1 : sepToDot pe.1 ∈ snap.map Prod.fst := by
        rw [hmap]
        simp only [List.map_map]
        exact List.mem_map_of_mem _ hpe
      rcases List.mem_map.mp hp1 with ⟨qe, hqe, hq1⟩
      rw [← h1, ← hq1]
      rw [show Parameterized.get_param (tempSetExit ss (body x1).1 snap) qe.1 =
          getPath (tempSetExit ss (body x1).1 snap) (splitPath qe.1) from rfl]
      rw [hrest qe hqe]
      exact (holds qe hqe).symm

/-- C2 witness: the notebook's scope — rpm 4000 and gear 3 on the default
car — with a body that raises; both values read their originals after. -/
theorem temporarily_set_restores_witness :
    pairwiseDisjoint ([("engine__current_rpm", Value.vInt 4000),
        ("transmission__current_gear", Value.vInt 3)].map
        (fun kv => (sepToDot kv.1, kv.2))) = true ∧
    Parameterized.temporarily_set sequencingSchemas carDefault
      [("engine__current_rpm", Value.vInt 4000),
       ("transmission__current_gear", Value.vInt 3)]
      (fun z => (z, true)) = (carDefault, none, true) ∧
    (∀ pe ∈ [("engine__current_rpm", Value.vInt 4000),
        ("transmission__current_gear", Value.vInt 3)],
      Parameterized.get_param carDefault (sepToDot pe.1) =
        Parameterized.get_param carDefault (sepToDot pe.1)) :=
  ⟨by decide, by decide,
   temporarily_set_restores sequencingSchemas carDefault
     [("engine__current_rpm", Value.vInt 4000),
      ("transmission__current_gear", Value.vInt 3)]
     (fun z => (z, true)) carDefault true (by decide)
     (by decide) (fun z old p _ hc => hc) (by decide)⟩

/-- C3 counterexample: on the notebook's default car, `get` with the single
path `engine.displacement` returns the one-entry mapping, not the bare value
that direct attribute access yields, so the claim that `get(x, p)` equals
direct chained attribute access is false at this input. -/
theorem get_single_wraps :
    Parameterized.get carDefault ["engine.displacement"] =
      .ok (.vDict (.fcons "engine.displacement" (.vFloat 2) .fnil)) ∧
    attrChain carDefault (splitPath "engine.displacement") = some (.vFloat 2) ∧
    Parameterized.get carDefault ["engine.displacement"] ≠ .ok (.vFloat 2) :=
  ⟨by decide, by decide, by decide⟩

/-- C3 amended: `get` with a single path returns the one-entry mapping from
the literal path string to the value of direct chained attribute access;
the bare value is returned by `get_param`. -/
theorem get_param_is_attr_chain (x : Value) (p : String) (v : Value)
    (h : getPath x (splitPath p) = .ok v) :
    Parameterized.get x [p] = .ok (.vDict (.fcons p v .fnil)) ∧
    Parameterized.get_param x p = .ok v ∧
    attrChain x (splitPath p) = some v := by
  refine ⟨?_, h, getPath_attrChain (splitPath p) x v h⟩
  simp [Parameterized.get, getMulti, h]

/-- C3 amended witness: the notebook's
`car.get("engine.displacement") == {"engine.displacement": 2.0}`. -/
theorem get_param_is_attr_chain_witness :
    getPath carDefault (splitPath "engine.displacement") = .ok (.vFloat 2) ∧
    Parameterized.get carDefault ["engine.displacement"] =
      .ok (.vDict (.fcons "engine.displacement" (.vFloat 2) .fnil)) ∧
    attrChain carDefault (splitPath "engine.displacement") = some (.vFloat 2) :=
  ⟨by decide,
   (get_param_is_attr_chain carDefault "engine.displacement" (.vFloat 2) (by decide)).1,
   (get_param_is_attr_chain carDefault "engine.displacement" (.vFloat 2) (by decide)).2.2⟩

/-- C4: at a valid path, `set_param` with a value the addressed validator
rejects raises `ValidationError` and leaves the whole instance (all nested
values included) unchanged; with a value that passes (and is a fixed point
of the addressed converter), a following `get_param` returns it. -/
theorem set_param_validate_spec (ss : Schemas) (x : Value) (p : String) (v : Value)
    (d : ParamDescriptor) (hd : routeDescr ss x (splitPath p) = some d) :
    (d.validate (d.convert v) = false →
      Parameterized.set_param ss x p v =
        (x, some (.validationError d.name d.allowed (d.convert v)))) ∧
    (d.validate (d.convert v) = true → d.convert v = v →
      (Parameterized.set_param ss x p v).2 = none ∧
      Parameterized.get_param (Parameterized.set_param ss x p v).1 p = .ok v) := by
  constructor
  · intro hval
    have he : runPipeline d v = .error (.validationError d.name d.allowed (d.convert v)) := by
      simp [runPipeline, hval]
    have h2 := setPath_err_of_pipeline ss (splitPath p) x v d hd _ he
    have h1 := setPath_fst_of_err ss (splitPath p) x v _ h2
    exact Prod.ext h1 h2
  · intro hval hfix
    have hval2 : d.validate v = true := hfix ▸ hval
    have hok : runPipeline d v = .ok v := by
      simp only [runPipeline, hfix]
      rw [if_pos hval2]
    exact setPath_ok_of_route ss (splitPath p) x v d hd v hok

/-- C4 witness: on the default car, rejecting `num_doors := 3` reports the
validation error and leaves the car unchanged, while accepting
`engine.displacement := 3.0` makes `get_param` read it back. -/
theorem set_param_validate_spec_witness :
    routeDescr sequencingSchemas carDefault (splitPath "num_doors") =
      some ⟨"num_doors", .vInt 4, intConvert, inIntList [2, 4], "[2, 4]"⟩ ∧
    Parameterized.set_param sequencingSchemas carDefault "num_doors" (.vInt 3) =
      (carDefault, some (.validationError "num_doors" "[2, 4]" (.vInt 3))) ∧
    routeDescr sequencingSchemas carDefault (splitPath "engine.displacement") =
      some ⟨"displacement", .vInt 2, floatConvert, anyValue, ""⟩ ∧
    Parameterized.get_param
      (Parameterized.set_param sequencingSchemas carDefault "engine.displacement"
        (.vFloat 3)).1 "engine.displacement" = .ok (.vFloat 3) :=
  ⟨rfl,
   (set_param_validate_spec sequencingSchemas carDefault "num_doors" (.vInt 3)
     ⟨"num_doors", .vInt 4, intConvert, inIntList [2, 4], "[2, 4]"⟩ rfl).1 rfl,
   rfl,
   ((set_param_validate_spec sequencingSchemas carDefault "engine.displacement"
     (.vFloat 3) ⟨"displacement", .vInt 2, floatConvert, anyValue, ""⟩ rfl).2
     rfl rfl).2⟩

/-- C5: constructing a `Car` with `chassis = "convertible"` fails with a
`ValidationError` naming the offending value and the allowed set, and so
does `num_doors = 3` against `[2, 4]`; no instance is produced (the result
is an error, never `ok`). -/
theorem construct_rejects_invalid_enum :
    Parameterized.new sequencingSchemas "__main__.Car" "convertible"
        (.fcons "chassis" (.vStr "convertible") .fnil)
      = .error (.validationError "chassis" "[sedan, coupe, hatchback, suv]"
          (.vStr "convertible")) ∧
    Parameterized.new sequencingSchemas "__main__.Car" "three_door"
        (.fcons "num_doors" (.vInt 3) .fnil)
      = .error (.validationError "num_doors" "[2, 4]" (.vInt 3)) :=
  ⟨by decide, by decide⟩

/-- C6: a failing multi-path `set` call is atomic — whenever the call
reports an error, the resulting state is exactly the original instance,
with no side effect from assignments listed earlier in the same call. -/
theorem set_multi_atomic (ss : Schemas) (x : Value) (kvs : List (String × Value))
    (y : Value) (e : PError) (h : Parameterized.set ss x kvs = (y, some e)) : y = x :=
  set_err_id ss x kvs y e h

/-- C6 witness: `set(engine__displacement = 3.0, num_doors = 3)` on the
default car fails on the second assignment and leaves the car exactly as it
was, although the first assignment alone would have succeeded. -/
theorem set_multi_atomic_witness :
    Parameterized.set sequencingSchemas carDefault
      [("engine__displacement", Value.vFloat 3), ("num_doors", Value.vInt 3)] =
      (carDefault, some (.validationError "num_doors" "[2, 4]" (.vInt 3))) ∧
    (Parameterized.set_param sequencingSchemas carDefault "engine.displacement"
      (Value.vFloat 3)).2 = none ∧
    carDefault = carDefault :=
  ⟨by decide, by decide,
   set_multi_atomic sequencingSchemas carDefault
     [("engine__displacement", Value.vFloat 3), ("num_doors", Value.vInt 3)]
     carDefault (.validationError "num_doors" "[2, 4]" (.vInt 3)) (by decide)⟩

/-- C8: the keyword form of `set` with the double-underscore separator is
equivalent to the string-path form — a singleton `set` call produces exactly
the state and error `set_param` produces on the dotted path, and when the
addressed pipeline accepts the value a following `get_param` reads it. -/
theorem set_kw_equals_set_param (ss : Schemas) (x : Value) (k : String) (v : Value) :
    Parameterized.set ss x [(k, v)] = Parameterized.set_param ss x (sepToDot k) v ∧
    (∀ d, routeDescr ss x (splitPath (sepToDot k)) = some d →
      d.convert v = v → d.validate v = true →
      Parameterized.get_param (Parameterized.set ss x [(k, v)]).1 (sepToDot k) = .ok v) := by
  refine ⟨set_singleton ss x k v, ?_⟩
  intro d hd hfix hval
  rw [set_singleton ss x k v]
  have hok : runPipeline d v = .ok v := by
    simp only [runPipeline, hfix]
    rw [if_pos hval]
  exact (setPath_ok_of_route ss (splitPath (sepToDot k)) x v d hd v hok).2

/-- C8 witness: the notebook's `car.set(engine__displacement = 3.0)` equals
`set_param(car, "engine.displacement", 3.0)` and reads back `3.0`. -/
theorem set_kw_equals_set_param_witness :
    Parameterized.set sequencingSchemas carDefault
        [("engine__displacement", Value.vFloat 3)] =
      Parameterized.set_param sequencingSchemas carDefault "engine.displacement"
        (Value.vFloat 3) ∧
    Parameterized.get_param (Parameterized.set sequencingSchemas carDefault
        [("engine__displacement", Value.vFloat 3)]).1 "engine.displacement" =
      .ok (.vFloat 3) := by
  have h := set_kw_equals_set_param sequencingSchemas carDefault
    "engine__displacement" (Value.vFloat 3)
  exact ⟨h.1, h.2 ⟨"displacement", .vInt 2, floatConvert, anyValue, ""⟩ rfl rfl rfl⟩

/-- C9: `FloatParameter` converts on construction — `Engine` built with
integer defaults stores `displacement = 2.0` and the default `Car` stores
`miles_per_gallon = 30.0` (matching the notebook's repr), and the float
converter sends every int to the equal float and fixes every float. -/
theorem float_parameter_converts :
    Parameterized.new sequencingSchemas "__main__.Engine" "engine" .fnil
      = .ok engineDefault ∧
    getPath engineDefault ["displacement"] = .ok (.vFloat 2) ∧
    Parameterized.new sequencingSchemas "__main__.Car" "car" .fnil = .ok carDefault ∧
    getPath carDefault ["miles_per_gallon"] = .ok (.vFloat 30) ∧
    (∀ n : Int, floatConvert (.vInt n) = .vFloat n) ∧
    (∀ q : Rat, floatConvert (.vFloat q) = .vFloat q) :=
  ⟨by decide, by decide, by decide, by decide, fun _ => rfl, fun _ => rfl⟩

/-- C10: a successful `set_param` changes only the addressed parameter —
reading any path disjoint from it (neither a segment-prefix of the other)
yields the same value as before the write. -/
theorem set_param_frame (ss : Schemas) (x : Value) (p q : String) (v : Value)
    (hset : (Parameterized.set_param ss x p v).2 = none)
    (hdisj : pathsDisjoint (splitPath p) (splitPath q) = true) :
    Parameterized.get_param (Parameterized.set_param ss x p v).1 q =
      Parameterized.get_param x q :=
  setPath_frame ss (splitPath p) x v hset (splitPath q) hdisj

/-- C10 witness: writing `engine.displacement := 3.0` on the default car
leaves `transmission.current_gear` reading its old value. -/
theorem set_param_frame_witness :
    (Parameterized.set_param sequencingSchemas carDefault "engine.displacement"
      (Value.vFloat 3)).2 = none ∧
    Parameterized.get_param (Parameterized.set_param sequencingSchemas carDefault
      "engine.displacement" (Value.vFloat 3)).1 "transmission.current_gear" =
      Parameterized.get_param carDefault "transmission.current_gear" :=
  ⟨by decide,
   set_param_frame sequencingSchemas carDefault "engine.displacement"
     "transmission.current_gear" (Value.vFloat 3) (by decide) (by decide)⟩

end Sequencing
